import Mathlib

/-!
Shallow embedding of the invoice-extraction pipeline of this repository:
the field-extraction normalization and confidence gate of `src/app.py`
(`extract` endpoint, lines 42-104) and the persistence upsert of
`src/controllers/invoice_controller.py` / `src/db_util.py`.

Python attribute access `getattr(x, "a", d)` on possibly-absent data is
modelled with `Option`: an absent (or `None`) attribute is `none`, and
`getattr`'s default is `Option.getD` / `Option.bind`.  Python dicts are
modelled as insertion-ordered association lists with in-place update
(`alInsert`), the semantics of CPython dict assignment.  Floats carrying
confidences are modelled as rationals (`Rat`), with the literal `0.9`
read as `9/10`.
-/

namespace InvParser

/-- A JSON-ish scalar value, as carried by the analysis result leaves.
`null` plays the role of Python `None` in value position. -/
inductive JVal where
  | s (v : String)
  | n (v : Int)
  | null
deriving DecidableEq, Repr

/-- One entry of `detected_document_types` on the analysis result. -/
structure DetectedDocType where
  document_type : Option String
  confidence : Option Rat
deriving DecidableEq, Repr

/-- A field label: `{name, confidence}`, both possibly absent. -/
structure FieldLabel where
  name : Option String
  confidence : Option Rat
deriving DecidableEq, Repr

/-- The `field_value` of an item-field: carries a scalar `value`. -/
structure ItemFieldValue where
  value : Option JVal
deriving DecidableEq, Repr

/-- An item-field inside one item-group (shaped like a regular field). -/
structure ItemField where
  field_label : Option FieldLabel
  field_value : Option ItemFieldValue
deriving DecidableEq, Repr

/-- The `field_value` of one item-group: carries the item-fields. -/
structure ItemGroupValue where
  items : Option (List ItemField)
deriving DecidableEq, Repr

/-- One item-group (one line item) of the "Items" field. -/
structure ItemGroup where
  field_value : Option ItemGroupValue
deriving DecidableEq, Repr

/-- The polymorphic `field_value` of a page-level document field: a
scalar `value` and, for the "Items" group variant, `items`. -/
structure FieldValue where
  value : Option JVal
  items : Option (List ItemGroup)
deriving DecidableEq, Repr

/-- A page-level document field. -/
structure DocumentField where
  field_label : Option FieldLabel
  field_value : Option FieldValue
deriving DecidableEq, Repr

/-- One page of the analysis result. -/
structure Page where
  document_fields : Option (List DocumentField)
deriving DecidableEq, Repr

/-- The raw analysis result (`response.data` in `app.py`). -/
structure RawAnalysisResult where
  detected_document_types : Option (List DetectedDocType)
  pages : Option (List Page)
deriving DecidableEq, Repr

/-- A value stored in the normalized `data` dict: either a scalar field
value or (under the key "Items") the list of item records.  An item
record is itself an insertion-ordered dict from item-field name to value. -/
inductive DataVal where
  | scalar (v : JVal)
  | itemList (l : List (List (String × JVal)))
deriving DecidableEq, Repr

/-- Lookup in an association list (Python `dict.get`). -/
def alGet {κ α : Type} [DecidableEq κ] (m : List (κ × α)) (k : κ) : Option α :=
  match m with
  | [] => none
  | (k1, v1) :: rest => if k1 = k then some v1 else alGet rest k

/-- Dict assignment `m[k] = v`: update in place if the key exists
(keeping its position), else append at the end — CPython dict semantics. -/
def alInsert {κ α : Type} [DecidableEq κ] (m : List (κ × α)) (k : κ) (v : α) :
    List (κ × α) :=
  match m with
  | [] => [(k, v)]
  | (k1, v1) :: rest => if k1 = k then (k, v) :: rest else (k1, v1) :: alInsert rest k v

/-- The `invoice_confidence` scan of `app.py` lines 47-53: walk the
detected types in order, stop at the first entry whose `document_type`
is "INVOICE" and take its confidence (`getattr` default `1.0`);
default `1.0` when no entry matches. -/
def findInvoiceConfidence : List DetectedDocType → Rat
  | [] => 1
  | dt :: rest =>
    if dt.document_type = some "INVOICE" then dt.confidence.getD 1
    else findInvoiceConfidence rest

/-- The `field_name` of a page-level field:
`getattr(getattr(field, "field_label", None), "name", None)`. -/
def labelName (f : DocumentField) : Option String :=
  f.field_label.bind FieldLabel.name

/-- The `field_conf` of a page-level field. -/
def labelConf (f : DocumentField) : Option Rat :=
  f.field_label.bind FieldLabel.confidence

/-- The scalar value read in the regular branch:
`getattr(getattr(field, "field_value", None), "value", None)`. -/
def scalarValueOf (f : DocumentField) : JVal :=
  (f.field_value.bind FieldValue.value).getD JVal.null

/-- The item-groups of an "Items" field:
`getattr(field_value, "items", None) or []`. -/
def groupsOf (f : DocumentField) : List ItemGroup :=
  (f.field_value.bind FieldValue.items).getD []

/-- The item-fields inside one item-group:
`getattr(item.field_value, "items", None) or []`. -/
def itemFieldsOf (ig : ItemGroup) : List ItemField :=
  (ig.field_value.bind ItemGroupValue.items).getD []

/-- The `item_field_name` of one item-field. -/
def itemFieldName (t : ItemField) : Option String :=
  t.field_label.bind FieldLabel.name

/-- The `item_field_value` of one item-field (`None` when absent). -/
def itemFieldVal (t : ItemField) : JVal :=
  (t.field_value.bind ItemFieldValue.value).getD JVal.null

/-- One step of a fold of keyed inserts: insert `val t` at `key t` when
the key is present, else leave the map unchanged. -/
def insStep {κ α γ : Type} [DecidableEq κ] (key : γ → Option κ) (val : γ → α)
    (acc : List (κ × α)) (t : γ) : List (κ × α) :=
  match key t with
  | some nm => alInsert acc nm (val t)
  | none => acc

/-- The inner loop of the "Items" branch (`app.py` lines 64-73): build
one item record from one item-group, inserting `name → value` for each
item-field whose label name is present (nameless item-fields skipped). -/
def extractItemRecord (ig : ItemGroup) : List (String × JVal) :=
  (itemFieldsOf ig).foldl (insStep itemFieldName itemFieldVal) []

/-- Mutable state of the extraction loop: the `data`, `data_confidence`
and `items` accumulators of `app.py`. -/
structure ExtractState where
  data : List (String × DataVal)
  dataConf : List (String × Option Rat)
  items : List (List (String × JVal))
deriving DecidableEq, Repr

/-- Processing of one page-level field (`app.py` lines 57-81). -/
def processField (st : ExtractState) (f : DocumentField) : ExtractState :=
  if labelName f = some "Items" then
    { st with items := st.items ++ (groupsOf f).map extractItemRecord }
  else
    match labelName f with
    | some nm =>
      { st with
        data := alInsert st.data nm (DataVal.scalar (scalarValueOf f)),
        dataConf := alInsert st.dataConf nm (labelConf f) }
    | none => st

/-- The normalized extraction: `{confidence, data, dataConfidence}`. -/
structure NormalizedExtraction where
  confidence : Rat
  data : List (String × DataVal)
  dataConfidence : List (String × Option Rat)
deriving DecidableEq, Repr

/-- The pure normalization core of the `extract` endpoint
(`app.py` lines 42-88): document confidence, page/field walk,
and the final `data["Items"] = items` assignment. -/
def normalize (raw : RawAnalysisResult) : NormalizedExtraction :=
  let conf := findInvoiceConfidence (raw.detected_document_types.getD [])
  let st := (raw.pages.getD []).foldl
    (fun st p => ((p.document_fields.getD [])).foldl processField st)
    ⟨[], [], []⟩
  { confidence := conf
    data := alInsert st.data "Items" (DataVal.itemList st.items)
    dataConfidence := st.dataConf }

/-- All page-level fields in encounter order (pages in order, fields
within a page in order). -/
def allFields (raw : RawAnalysisResult) : List DocumentField :=
  (raw.pages.getD []).flatMap (fun p => p.document_fields.getD [])

/-! ## Persistence layer

The upsert of `InvoiceController.create` / `save_inv_extraction`: rows
of the three tables, keyed by the raw `InvoiceId` value.  `dict.get(k)`
conflates an absent key with a stored `None`; the row constructors below
do the same via `Option.getD`/`Option.join`. -/

/-- Python truthiness of `invoice_data.get("InvoiceId")` as used in the
`if not invoice_id` / `if invoice_id:` guards. -/
def pyTruthy : Option DataVal → Bool
  | none => false
  | some (DataVal.scalar JVal.null) => false
  | some (DataVal.scalar (JVal.s v)) => v ≠ ""
  | some (DataVal.scalar (JVal.n v)) => v ≠ 0
  | some (DataVal.itemList l) => l ≠ []

/-- The `InvoiceId` used for persistence: `data.get("InvoiceId")` when
truthy, otherwise the save is a no-op. -/
def invoiceIdOf (data : List (String × DataVal)) : Option DataVal :=
  let v := alGet data "InvoiceId"
  if pyTruthy v then v else none

/-- A row of the `invoices` table: the seven non-key columns, each read
with `data.get(column)` (absent key stored as SQL NULL = `scalar null`). -/
structure InvoiceRow where
  vendorName : DataVal
  invoiceDate : DataVal
  billingAddressRecipient : DataVal
  shippingAddress : DataVal
  subTotal : DataVal
  shippingCost : DataVal
  invoiceTotal : DataVal
deriving DecidableEq, Repr

/-- A row of the `confidences` table: per-column confidence, `none` when
the confidence dict lacks the key or holds `None`. -/
structure ConfidenceRow where
  vendorName : Option Rat
  invoiceDate : Option Rat
  billingAddressRecipient : Option Rat
  shippingAddress : Option Rat
  subTotal : Option Rat
  shippingCost : Option Rat
  invoiceTotal : Option Rat
deriving DecidableEq, Repr

/-- A row of the `items` table (the surrogate integer key is dropped;
the list order of `DB.items` stands for insertion order). -/
structure ItemRow where
  invoiceId : DataVal
  description : JVal
  name : JVal
  quantity : JVal
  unitPrice : JVal
  amount : JVal
deriving DecidableEq, Repr

/-- The persistent store: `invoices` and `confidences` keyed by
`InvoiceId`, `items` a multiset of rows in insertion order. -/
structure DB where
  invoices : List (DataVal × InvoiceRow)
  confidences : List (DataVal × ConfidenceRow)
  items : List ItemRow
deriving DecidableEq, Repr

/-- Reading `data.get(k)` into a value column: an absent key reads as `None`. -/
def colOf (data : List (String × DataVal)) (k : String) : DataVal :=
  (alGet data k).getD (DataVal.scalar JVal.null)

/-- The invoice row written for `data` (full column overwrite). -/
def mkInvoiceRow (data : List (String × DataVal)) : InvoiceRow :=
  { vendorName := colOf data "VendorName"
    invoiceDate := colOf data "InvoiceDate"
    billingAddressRecipient := colOf data "BillingAddressRecipient"
    shippingAddress := colOf data "ShippingAddress"
    subTotal := colOf data "SubTotal"
    shippingCost := colOf data "ShippingCost"
    invoiceTotal := colOf data "InvoiceTotal" }

/-- The confidence row written for `conf` (full column overwrite). -/
def mkConfidenceRow (conf : List (String × Option Rat)) : ConfidenceRow :=
  { vendorName := (alGet conf "VendorName").join
    invoiceDate := (alGet conf "InvoiceDate").join
    billingAddressRecipient := (alGet conf "BillingAddressRecipient").join
    shippingAddress := (alGet conf "ShippingAddress").join
    subTotal := (alGet conf "SubTotal").join
    shippingCost := (alGet conf "ShippingCost").join
    invoiceTotal := (alGet conf "InvoiceTotal").join }

/-- One `items` row from one item record (`item.get(column)`). -/
def mkItemRow (iid : DataVal) (it : List (String × JVal)) : ItemRow :=
  { invoiceId := iid
    description := (alGet it "Description").getD JVal.null
    name := (alGet it "Name").getD JVal.null
    quantity := (alGet it "Quantity").getD JVal.null
    unitPrice := (alGet it "UnitPrice").getD JVal.null
    amount := (alGet it "Amount").getD JVal.null }

/-- Reading `data.get("Items", [])` as a list of item records. -/
def itemRecordsOf (data : List (String × DataVal)) : List (List (String × JVal)) :=
  match alGet data "Items" with
  | some (DataVal.itemList l) => l
  | _ => []

/-- The upsert of `InvoiceController.create` / `save_inv_extraction`:
with a truthy `InvoiceId`, replace-or-insert the invoice row and the
confidence row by key, delete all item rows of that key, then insert one
item row per entry of `data["Items"]`; otherwise write nothing. -/
def save (db : DB) (data : List (String × DataVal))
    (conf : List (String × Option Rat)) : DB :=
  match invoiceIdOf data with
  | none => db
  | some iid =>
    { invoices := alInsert db.invoices iid (mkInvoiceRow data)
      confidences := alInsert db.confidences iid (mkConfidenceRow conf)
      items := db.items.filter (fun r => ¬ r.invoiceId = iid)
        ++ (itemRecordsOf data).map (mkItemRow iid) }

/-- The item rows currently stored for one `InvoiceId`, in order. -/
def itemsFor (db : DB) (iid : DataVal) : List ItemRow :=
  db.items.filter (fun r => r.invoiceId = iid)

/-! ## Confidence gate -/

/-- What the endpoint hands back to the caller after normalization:
the success payload, or a JSON error response with its HTTP status. -/
inductive ExtractOutcome where
  | ok (result : NormalizedExtraction)
  | jsonError (status : Nat) (msg : String)
deriving DecidableEq, Repr

/-- The tail of the `extract` endpoint (`app.py` lines 85-104) on a
normalized extraction: reject with a 400 client error below `0.9`,
otherwise attempt the best-effort save — a raising save (`persistFails`)
is caught, rolled back and discarded — and return the result.  Returns
the response together with the resulting store. -/
def gateAndPersist (e : NormalizedExtraction) (db : DB) (persistFails : Bool) :
    ExtractOutcome × DB :=
  if e.confidence < 9/10 then
    (ExtractOutcome.jsonError 400
      "Invalid document. Please upload a valid PDF invoice with high confidence.", db)
  else if persistFails then
    (ExtractOutcome.ok e, db)
  else
    (ExtractOutcome.ok e, save db e.data e.dataConfidence)

/-- The key under which one field writes into `data`/`data_confidence`:
its label name, except that "Items" fields and nameless fields write
nothing. -/
def dataKey (f : DocumentField) : Option String :=
  match labelName f with
  | some nm => if nm = "Items" then none else some nm
  | none => none

/-- The state produced by the page/field walk of `normalize`. -/
def foldState (raw : RawAnalysisResult) : ExtractState :=
  (allFields raw).foldl processField ⟨[], [], []⟩

/-! ## Concrete instances used in witnesses and counterexamples -/

/-- A raw result with every collection absent. -/
def rawEmpty : RawAnalysisResult := ⟨none, none⟩

/-- A field labeled "A" with value "v1" and label confidence 1/2. -/
def fldA1 : DocumentField :=
  ⟨some ⟨some "A", some (1/2)⟩, some ⟨some (JVal.s "v1"), none⟩⟩

/-- A field labeled "A" with value "v2" and label confidence 3/4. -/
def fldA2 : DocumentField :=
  ⟨some ⟨some "A", some (3/4)⟩, some ⟨some (JVal.s "v2"), none⟩⟩

/-- Detected as INVOICE at 95/100; two pages both holding a field named
"A" (the second should win). -/
def rawDup : RawAnalysisResult :=
  ⟨some [⟨some "INVOICE", some (95/100)⟩], some [⟨some [fldA1]⟩, ⟨some [fldA2]⟩]⟩

/-- An item-group with one named item-field (`Name → "pen"`) and one
nameless item-field (to be skipped). -/
def igPen : ItemGroup :=
  ⟨some ⟨some [⟨some ⟨some "Name", some (1/2)⟩, some ⟨some (JVal.s "pen")⟩⟩,
               ⟨none, some ⟨some (JVal.s "ghost")⟩⟩]⟩⟩

/-- An item-group with an empty item-field list. -/
def igEmpty : ItemGroup := ⟨some ⟨some []⟩⟩

/-- An item-group whose only item-field lacks a label name. -/
def igNameless : ItemGroup := ⟨some ⟨some [⟨none, some ⟨some (JVal.s "g")⟩⟩]⟩⟩

/-- A page-level "Items" field holding `igPen` and `igEmpty`. -/
def itemsFld : DocumentField :=
  ⟨some ⟨some "Items", none⟩, some ⟨none, some [igPen, igEmpty]⟩⟩

/-- Detected types where the first INVOICE entry lacks a confidence and
a later INVOICE entry carries one; one page with an "Items" field. -/
def rawItems : RawAnalysisResult :=
  ⟨some [⟨some "RECEIPT", some (1/10)⟩, ⟨some "INVOICE", none⟩,
         ⟨some "INVOICE", some (1/5)⟩],
   some [⟨some [itemsFld]⟩]⟩

/-- The empty store. -/
def db0 : DB := ⟨[], [], []⟩

/-- An extraction sitting exactly on the acceptance threshold. -/
def eBoundary : NormalizedExtraction := ⟨9/10, [], []⟩

/-- An extraction just below the acceptance threshold. -/
def eLow : NormalizedExtraction := ⟨8999/10000, [], []⟩

/-- A fully trusted extraction with an empty field map. -/
def eTrusted : NormalizedExtraction := ⟨1, [("Items", DataVal.itemList [])], []⟩

/-- Normalized data carrying an `InvoiceId` and one item record. -/
def dataInv1 : List (String × DataVal) :=
  [("InvoiceId", DataVal.scalar (JVal.s "INV-1")),
   ("Items", DataVal.itemList [[("Name", JVal.s "pen")]])]

/-- A re-save of the same `InvoiceId` with a different item set. -/
def dataInv1b : List (String × DataVal) :=
  [("InvoiceId", DataVal.scalar (JVal.s "INV-1")),
   ("Items", DataVal.itemList [[("Name", JVal.s "book")], [("Name", JVal.s "pen2")]])]

/-- A confidence map for the saves above. -/
def confInv1 : List (String × Option Rat) := [("VendorName", some (1/2))]

/-! ## Association-list lemmas -/

theorem alGet_alInsert_self {κ α : Type} [DecidableEq κ] (m : List (κ × α)) (k : κ) (v : α) :
    alGet (alInsert m k v) k = some v := by
  induction m with
  | nil => simp [alInsert, alGet]
  | cons hd tl ih =>
    obtain ⟨k1, v1⟩ := hd
    by_cases h : k1 = k
    · simp [alInsert, alGet, h]
    · simp [alInsert, alGet, h, ih]

theorem alGet_alInsert_ne {κ α : Type} [DecidableEq κ] (m : List (κ × α)) (k j : κ) (v : α)
    (h : k ≠ j) : alGet (alInsert m k v) j = alGet m j := by
  induction m with
  | nil => simp [alInsert, alGet, h]
  | cons hd tl ih =>
    obtain ⟨k1, v1⟩ := hd
    by_cases h1 : k1 = k
    · subst h1; simp [alInsert, alGet, h]
    · simp [alInsert, alGet, h1, ih]

theorem keys_alInsert {κ α : Type} [DecidableEq κ] (m : List (κ × α)) (k : κ) (v : α) :
    (alInsert m k v).map Prod.fst
      = if k ∈ m.map Prod.fst then m.map Prod.fst else m.map Prod.fst ++ [k] := by
  induction m with
  | nil => simp [alInsert]
  | cons hd tl ih =>
    obtain ⟨k1, v1⟩ := hd
    by_cases h1 : k1 = k
    · subst h1; simp [alInsert]
    · have h1' : ¬ k = k1 := fun he => h1 he.symm
      simp [alInsert, h1, ih, h1']
      by_cases h2 : k ∈ tl.map Prod.fst <;> simp [h2, h1']

theorem keys_nodup_alInsert {κ α : Type} [DecidableEq κ] (m : List (κ × α)) (k : κ) (v : α)
    (h : (m.map Prod.fst).Nodup) : ((alInsert m k v).map Prod.fst).Nodup := by
  rw [keys_alInsert]
  by_cases h2 : k ∈ m.map Prod.fst
  · simpa [h2] using h
  · simp only [h2, if_false]
    refine List.Nodup.append h (List.nodup_singleton k) ?_
    intro a ha hb
    rw [List.mem_singleton] at hb
    exact h2 (hb ▸ ha)

theorem alGet_of_mem_nodup {κ α : Type} [DecidableEq κ] (m : List (κ × α)) (k : κ) (v : α)
    (hnd : (m.map Prod.fst).Nodup) (hm : (k, v) ∈ m) : alGet m k = some v := by
  induction m with
  | nil => cases hm
  | cons hd tl ih =>
    obtain ⟨k1, v1⟩ := hd
    rw [List.map_cons, List.nodup_cons] at hnd
    rcases List.mem_cons.mp hm with h | h
    · cases h
      simp [alGet]
    · have hk : k ∈ tl.map Prod.fst := List.mem_map_of_mem Prod.fst h
      have hk1 : ¬ k1 = k := fun he => hnd.1 (he ▸ hk)
      simp [alGet, hk1, ih hnd.2 h]

/-- Generic characterization of a left fold of keyed inserts: the lookup
at `k` is determined by the last element whose key is `k` (first of the
reversed list), else by the initial map. -/
theorem alGet_foldl_insert {κ α γ : Type} [DecidableEq κ]
    (key : γ → Option κ) (val : γ → α) (l : List γ) (m : List (κ × α)) (k : κ) :
    alGet (l.foldl (insStep key val) m) k
      = match l.reverse.find? (fun t => decide (key t = some k)) with
        | some t => some (val t)
        | none => alGet m k := by
  induction l generalizing m with
  | nil => simp
  | cons hd tl ih =>
    rw [List.foldl_cons, ih, List.reverse_cons, List.find?_append]
    cases hfind : tl.reverse.find? (fun t => decide (key t = some k)) with
    | some t => simp
    | none =>
      cases hk : key hd with
      | none => simp [List.find?, hk, insStep]
      | some nm =>
        by_cases hnm : nm = k
        · subst hnm
          simp [List.find?, hk, insStep, alGet_alInsert_self]
        · simp [List.find?, hk, hnm, insStep, alGet_alInsert_ne _ _ _ _ hnm]

/-- A left fold of keyed inserts preserves distinctness of keys. -/
theorem keys_nodup_foldl_insert {κ α γ : Type} [DecidableEq κ]
    (key : γ → Option κ) (val : γ → α) (l : List γ) (m : List (κ × α))
    (h : (m.map Prod.fst).Nodup) :
    ((l.foldl (insStep key val) m).map Prod.fst).Nodup := by
  induction l generalizing m with
  | nil => exact h
  | cons hd tl ih =>
    rw [List.foldl_cons]
    cases hk : key hd with
    | none => simpa [insStep, hk] using ih m h
    | some nm => simpa [insStep, hk] using ih _ (keys_nodup_alInsert m nm (val hd) h)

/-! ## Characterizations of the extraction fold -/

theorem data_foldl_proj (fs : List DocumentField) (st : ExtractState) :
    (fs.foldl processField st).data
      = fs.foldl (insStep dataKey (fun f => DataVal.scalar (scalarValueOf f))) st.data := by
  induction fs generalizing st with
  | nil => rfl
  | cons f fs ih =>
    rw [List.foldl_cons, List.foldl_cons, ih]
    congr 1
    unfold processField dataKey insStep
    cases h : labelName f with
    | none => simp [h]
    | some nm => by_cases hnm : nm = "Items" <;> simp [h, hnm]

theorem conf_foldl_proj (fs : List DocumentField) (st : ExtractState) :
    (fs.foldl processField st).dataConf
      = fs.foldl (insStep dataKey labelConf) st.dataConf := by
  induction fs generalizing st with
  | nil => rfl
  | cons f fs ih =>
    rw [List.foldl_cons, List.foldl_cons, ih]
    congr 1
    unfold processField dataKey insStep
    cases h : labelName f with
    | none => simp [h]
    | some nm => by_cases hnm : nm = "Items" <;> simp [h, hnm]

theorem items_foldl_proj (fs : List DocumentField) (st : ExtractState) :
    (fs.foldl processField st).items
      = st.items ++ fs.flatMap (fun f =>
          if labelName f = some "Items" then (groupsOf f).map extractItemRecord else []) := by
  induction fs generalizing st with
  | nil => simp
  | cons f fs ih =>
    rw [List.foldl_cons, ih, List.flatMap_cons]
    unfold processField
    cases h : labelName f with
    | none => simp [h]
    | some nm =>
      by_cases hnm : nm = "Items"
      · subst hnm; simp [h, List.append_assoc]
      · simp [h, hnm]

theorem foldl_pages (ps : List Page) (st : ExtractState) :
    ps.foldl (fun st p => ((p.document_fields.getD [])).foldl processField st) st
      = (ps.flatMap (fun p => p.document_fields.getD [])).foldl processField st := by
  induction ps generalizing st with
  | nil => rfl
  | cons p ps ih => rw [List.foldl_cons, ih, List.flatMap_cons, List.foldl_append]

theorem normalize_eq (raw : RawAnalysisResult) :
    normalize raw
      = { confidence := findInvoiceConfidence (raw.detected_document_types.getD [])
          data := alInsert (foldState raw).data "Items" (DataVal.itemList (foldState raw).items)
          dataConfidence := (foldState raw).dataConf } := by
  unfold normalize foldState allFields
  rw [foldl_pages]

/-- For any `f` and `k ≠ "Items"`, `dataKey f = some k` iff
`labelName f = some k`. -/
theorem dataKey_pred_eq (k : String) (hk : k ≠ "Items") :
    (fun f => decide (dataKey f = some k)) = (fun f => decide (labelName f = some k)) := by
  funext f
  rw [decide_eq_decide]
  unfold dataKey
  cases h : labelName f with
  | none => simp
  | some nm =>
    by_cases hnm : nm = "Items"
    · subst hnm
      simp
      exact fun he => hk he.symm
    · simp [hnm]

theorem normalize_data_get (raw : RawAnalysisResult) (k : String) (hk : k ≠ "Items") :
    alGet (normalize raw).data k
      = match (allFields raw).reverse.find? (fun f => decide (labelName f = some k)) with
        | some f => some (DataVal.scalar (scalarValueOf f))
        | none => none := by
  rw [normalize_eq]
  show alGet (alInsert _ "Items" _) k = _
  rw [alGet_alInsert_ne _ _ _ _ (fun he => hk he.symm)]
  unfold foldState
  rw [data_foldl_proj]
  rw [show (⟨[], [], []⟩ : ExtractState).data = [] from rfl]
  rw [alGet_foldl_insert dataKey (fun f => DataVal.scalar (scalarValueOf f)), dataKey_pred_eq k hk]
  cases (allFields raw).reverse.find? (fun f => decide (labelName f = some k)) <;> simp [alGet]

theorem normalize_conf_get (raw : RawAnalysisResult) (k : String) (hk : k ≠ "Items") :
    alGet (normalize raw).dataConfidence k
      = match (allFields raw).reverse.find? (fun f => decide (labelName f = some k)) with
        | some f => some (labelConf f)
        | none => none := by
  rw [normalize_eq]
  show alGet (foldState raw).dataConf k = _
  unfold foldState
  rw [conf_foldl_proj]
  rw [show (⟨[], [], []⟩ : ExtractState).dataConf = [] from rfl]
  rw [alGet_foldl_insert dataKey labelConf, dataKey_pred_eq k hk]
  cases (allFields raw).reverse.find? (fun f => decide (labelName f = some k)) <;> simp [alGet]

theorem normalize_conf_items_none (raw : RawAnalysisResult) :
    alGet (normalize raw).dataConfidence "Items" = none := by
  rw [normalize_eq]
  show alGet (foldState raw).dataConf "Items" = _
  unfold foldState
  rw [conf_foldl_proj]
  rw [show (⟨[], [], []⟩ : ExtractState).dataConf = [] from rfl]
  rw [alGet_foldl_insert dataKey labelConf]
  have hnone : (allFields raw).reverse.find? (fun f => decide (dataKey f = some "Items")) = none := by
    apply List.find?_eq_none.mpr
    intro f _
    unfold dataKey
    cases h : labelName f with
    | none => simp
    | some nm => by_cases hnm : nm = "Items" <;> simp [hnm]
  rw [hnone]
  rfl

theorem normalize_items_get (raw : RawAnalysisResult) :
    alGet (normalize raw).data "Items"
      = some (DataVal.itemList ((allFields raw).flatMap (fun f =>
          if labelName f = some "Items" then (groupsOf f).map extractItemRecord else []))) := by
  rw [normalize_eq]
  show alGet (alInsert _ "Items" _) "Items" = _
  rw [alGet_alInsert_self]
  unfold foldState
  rw [items_foldl_proj]
  rfl

/-! ## Confidence scan and item-record lemmas -/

theorem normalize_confidence (raw : RawAnalysisResult) :
    (normalize raw).confidence
      = findInvoiceConfidence (raw.detected_document_types.getD []) := by
  rw [normalize_eq]

theorem fic_of_no_match (l : List DetectedDocType)
    (h : ∀ x ∈ l, x.document_type ≠ some "INVOICE") : findInvoiceConfidence l = 1 := by
  induction l with
  | nil => rfl
  | cons dt rest ih =>
    have h1 := h dt (List.mem_cons_self dt rest)
    simp only [findInvoiceConfidence, h1, if_false]
    exact ih (fun x hx => h x (List.mem_cons_of_mem dt hx))

theorem fic_first (pre : List DetectedDocType) (dt : DetectedDocType)
    (post : List DetectedDocType)
    (hpre : ∀ x ∈ pre, x.document_type ≠ some "INVOICE")
    (hdt : dt.document_type = some "INVOICE") :
    findInvoiceConfidence (pre ++ dt :: post) = dt.confidence.getD 1 := by
  induction pre with
  | nil => simp [findInvoiceConfidence, hdt]
  | cons y ys ih =>
    have h1 := hpre y (List.mem_cons_self y ys)
    simp only [List.cons_append, findInvoiceConfidence, h1, if_false]
    exact ih (fun x hx => hpre x (List.mem_cons_of_mem y hx))

theorem extractItemRecord_get (ig : ItemGroup) (k : String) :
    alGet (extractItemRecord ig) k
      = match (itemFieldsOf ig).reverse.find? (fun t => decide (itemFieldName t = some k)) with
        | some t => some (itemFieldVal t)
        | none => none := by
  unfold extractItemRecord
  rw [alGet_foldl_insert itemFieldName itemFieldVal]
  cases (itemFieldsOf ig).reverse.find? (fun t => decide (itemFieldName t = some k)) <;> rfl

theorem foldl_insStep_all_none {κ α γ : Type} [DecidableEq κ]
    (key : γ → Option κ) (val : γ → α) (l : List γ) (m : List (κ × α))
    (h : ∀ t ∈ l, key t = none) : l.foldl (insStep key val) m = m := by
  induction l generalizing m with
  | nil => rfl
  | cons hd tl ih =>
    rw [List.foldl_cons]
    have h1 := h hd (List.mem_cons_self hd tl)
    rw [show insStep key val m hd = m by simp [insStep, h1]]
    exact ih m (fun t ht => h t (List.mem_cons_of_mem hd ht))

theorem normalize_data_keys_nodup (raw : RawAnalysisResult) :
    ((normalize raw).data.map Prod.fst).Nodup := by
  rw [normalize_eq]
  show ((alInsert (foldState raw).data "Items" _).map Prod.fst).Nodup
  apply keys_nodup_alInsert
  unfold foldState
  rw [data_foldl_proj]
  rw [show (⟨[], [], []⟩ : ExtractState).data = [] from rfl]
  exact keys_nodup_foldl_insert _ _ _ _ (by simp)

/-! ## Upsert lemmas -/

theorem save_no_id (db : DB) (data : List (String × DataVal))
    (conf : List (String × Option Rat)) (h : invoiceIdOf data = none) :
    save db data conf = db := by
  unfold save
  rw [h]

theorem save_invoices_self (db : DB) (data : List (String × DataVal))
    (conf : List (String × Option Rat)) (iid : DataVal)
    (h : invoiceIdOf data = some iid) :
    alGet (save db data conf).invoices iid = some (mkInvoiceRow data) := by
  unfold save
  rw [h]
  exact alGet_alInsert_self _ _ _

theorem save_confidences_self (db : DB) (data : List (String × DataVal))
    (conf : List (String × Option Rat)) (iid : DataVal)
    (h : invoiceIdOf data = some iid) :
    alGet (save db data conf).confidences iid = some (mkConfidenceRow conf) := by
  unfold save
  rw [h]
  exact alGet_alInsert_self _ _ _

theorem save_itemsFor_self (db : DB) (data : List (String × DataVal))
    (conf : List (String × Option Rat)) (iid : DataVal)
    (h : invoiceIdOf data = some iid) :
    itemsFor (save db data conf) iid = (itemRecordsOf data).map (mkItemRow iid) := by
  unfold save itemsFor
  rw [h]
  show List.filter _ (_ ++ _) = _
  rw [List.filter_append]
  have h1 : (db.items.filter (fun r => ¬ r.invoiceId = iid)).filter
      (fun r => r.invoiceId = iid) = [] := by
    rw [List.filter_filter]
    apply List.filter_eq_nil_iff.mpr
    intro r _
    by_cases hr : r.invoiceId = iid <;> simp [hr]
  have h2 : ((itemRecordsOf data).map (mkItemRow iid)).filter
      (fun r => r.invoiceId = iid) = (itemRecordsOf data).map (mkItemRow iid) := by
    apply List.filter_eq_self.mpr
    intro r hr
    rcases List.mem_map.mp hr with ⟨it, _, hit⟩
    subst hit
    simp [mkItemRow]
  rw [h1, h2, List.nil_append]

theorem save_invoices_other (db : DB) (data : List (String × DataVal))
    (conf : List (String × Option Rat)) (iid j : DataVal)
    (h : invoiceIdOf data = some iid) (hj : j ≠ iid) :
    alGet (save db data conf).invoices j = alGet db.invoices j := by
  unfold save
  rw [h]
  exact alGet_alInsert_ne _ _ _ _ (fun he => hj he.symm)

theorem save_confidences_other (db : DB) (data : List (String × DataVal))
    (conf : List (String × Option Rat)) (iid j : DataVal)
    (h : invoiceIdOf data = some iid) (hj : j ≠ iid) :
    alGet (save db data conf).confidences j = alGet db.confidences j := by
  unfold save
  rw [h]
  exact alGet_alInsert_ne _ _ _ _ (fun he => hj he.symm)

theorem save_itemsFor_other (db : DB) (data : List (String × DataVal))
    (conf : List (String × Option Rat)) (iid j : DataVal)
    (h : invoiceIdOf data = some iid) (hj : j ≠ iid) :
    itemsFor (save db data conf) j = itemsFor db j := by
  unfold save itemsFor
  rw [h]
  show List.filter _ (_ ++ _) = _
  rw [List.filter_append]
  have h1 : (db.items.filter (fun r => ¬ r.invoiceId = iid)).filter
      (fun r => r.invoiceId = j) = db.items.filter (fun r => r.invoiceId = j) := by
    rw [List.filter_filter]
    apply List.filter_congr
    intro r _
    by_cases hr : r.invoiceId = j
    · simp [hr]
      exact hj
    · simp [hr]
  have h2 : ((itemRecordsOf data).map (mkItemRow iid)).filter
      (fun r => r.invoiceId = j) = [] := by
    apply List.filter_eq_nil_iff.mpr
    intro r hr
    rcases List.mem_map.mp hr with ⟨it, _, hit⟩
    subst hit
    simp [mkItemRow]
    exact fun he => hj he.symm
  rw [h1, h2, List.append_nil]

/-! ## Claim theorems -/

/-- C1: for every normalized extraction, the confidence gate accepts (returns
the success payload to the caller) exactly when the document-level confidence
is at least 9/10 — the boundary 9/10 itself passes — and for every confidence
strictly below 9/10 it returns the 400 client-error response and leaves the
store unchanged. -/
theorem C1_confidence_gate (e : NormalizedExtraction) (db : DB) (pf : Bool) :
    ((gateAndPersist e db pf).1 = ExtractOutcome.ok e ↔ 9/10 ≤ e.confidence)
    ∧ (e.confidence < 9/10 →
        (gateAndPersist e db pf).1 = ExtractOutcome.jsonError 400
          "Invalid document. Please upload a valid PDF invoice with high confidence."
        ∧ (gateAndPersist e db pf).2 = db) := by
  unfold gateAndPersist
  by_cases h : e.confidence < 9/10
  · rw [if_pos h]
    refine ⟨⟨fun hc => ?_, fun hc => absurd hc (not_le.mpr h)⟩, fun _ => ⟨rfl, rfl⟩⟩
    exact ExtractOutcome.noConfusion hc
  · rw [if_neg h]
    refine ⟨⟨fun _ => not_lt.mp h, fun _ => ?_⟩, fun hc => absurd hc h⟩
    cases pf <;> rfl

/-- Witness for C1: the boundary confidence 9/10 is accepted, and the
confidence 8999/10000 is rejected with the store untouched. -/
theorem C1_confidence_gate_witness :
    (gateAndPersist eBoundary db0 false).1 = ExtractOutcome.ok eBoundary
    ∧ ((gateAndPersist eLow db0 false).1 = ExtractOutcome.jsonError 400
        "Invalid document. Please upload a valid PDF invoice with high confidence."
      ∧ (gateAndPersist eLow db0 false).2 = db0) :=
  ⟨(C1_confidence_gate eBoundary db0 false).1.mpr (by norm_num [eBoundary]),
   (C1_confidence_gate eLow db0 false).2 (by norm_num [eLow])⟩

/-- C2: the document confidence returned by normalization is the confidence of
the first entry of `detectedDocumentTypes` (in input order) whose document type
is "INVOICE", whatever comes after it; when no entry matches it is 1. -/
theorem C2_first_invoice_confidence (raw : RawAnalysisResult) :
    ((∀ x ∈ raw.detected_document_types.getD [], x.document_type ≠ some "INVOICE") →
      (normalize raw).confidence = 1)
    ∧ (∀ pre dt post,
        raw.detected_document_types.getD [] = pre ++ dt :: post →
        (∀ x ∈ pre, x.document_type ≠ some "INVOICE") →
        dt.document_type = some "INVOICE" →
        (normalize raw).confidence = dt.confidence.getD 1) := by
  constructor
  · intro h
    rw [normalize_confidence]
    exact fic_of_no_match _ h
  · intro pre dt post heq hpre hdt
    rw [normalize_confidence, heq]
    exact fic_first pre dt post hpre hdt

/-- Witness for C2: on `rawDup` the single "INVOICE" entry carries 95/100. -/
theorem C2_first_invoice_confidence_witness :
    (normalize rawDup).confidence = (95/100 : Rat) :=
  (C2_first_invoice_confidence rawDup).2 [] ⟨some "INVOICE", some (95/100)⟩ []
    (by rfl) (by decide) (by rfl)

/-- C3: when two or more non-"Items" fields share a label name, the normalized
`fields` and `fieldConfidences` maps both hold the value and confidence of the
last such field in page-then-field encounter order. -/
theorem C3_last_write_wins (raw : RawAnalysisResult) (nm : String) (f : DocumentField)
    (hnm : nm ≠ "Items")
    (_hcount : 2 ≤ ((allFields raw).filter (fun g => decide (labelName g = some nm))).length)
    (hlast : (allFields raw).reverse.find? (fun g => decide (labelName g = some nm))
      = some f) :
    alGet (normalize raw).data nm = some (DataVal.scalar (scalarValueOf f))
    ∧ alGet (normalize raw).dataConfidence nm = some (labelConf f) := by
  rw [normalize_data_get raw nm hnm, normalize_conf_get raw nm hnm, hlast]
  exact ⟨rfl, rfl⟩

/-- Witness for C3: on `rawDup`, "A" appears on two pages and the second
field's value and confidence win in both maps. -/
theorem C3_last_write_wins_witness :
    alGet (normalize rawDup).data "A" = some (DataVal.scalar (JVal.s "v2"))
    ∧ alGet (normalize rawDup).dataConfidence "A" = some (some (3/4 : Rat)) :=
  C3_last_write_wins rawDup "A" fldA2 (by decide) (by decide) (by rfl)

/-- C4: the accumulated item list appends, for each "Items" field in order, one
record per item-group in order; a record's lookup at a key is the value of the
last item-field of its group bearing that name (nameless item-fields are
skipped), and a group whose item-fields are all nameless yields the empty
record. -/
theorem C4_items_flattening (raw : RawAnalysisResult) :
    alGet (normalize raw).data "Items"
      = some (DataVal.itemList ((allFields raw).flatMap (fun f =>
          if labelName f = some "Items" then (groupsOf f).map extractItemRecord else [])))
    ∧ (∀ ig k, alGet (extractItemRecord ig) k
        = match (itemFieldsOf ig).reverse.find?
            (fun t => decide (itemFieldName t = some k)) with
          | some t => some (itemFieldVal t)
          | none => none)
    ∧ (∀ ig, (∀ t ∈ itemFieldsOf ig, itemFieldName t = none) → extractItemRecord ig = []) := by
  refine ⟨normalize_items_get raw, fun ig k => extractItemRecord_get ig k, fun ig h => ?_⟩
  unfold extractItemRecord
  exact foldl_insStep_all_none itemFieldName itemFieldVal _ _ h

/-- Witness for C4: `rawItems` holds one "Items" field with two item-groups;
the first yields one named key (its nameless item-field skipped), the second
an empty record, and a fully nameless group yields the empty record. -/
theorem C4_items_flattening_witness :
    alGet (normalize rawItems).data "Items"
      = some (DataVal.itemList [[("Name", JVal.s "pen")], []])
    ∧ extractItemRecord igNameless = [] :=
  ⟨(C4_items_flattening rawItems).1.trans (by decide),
   (C4_items_flattening rawItems).2.2 igNameless (by decide)⟩

/-- C5: after normalization the fields map binds "Items" to the accumulated
item list — present even when empty, and it is the only binding under that
key, overwriting any literal field of that name. -/
theorem C5_items_always_set (raw : RawAnalysisResult) :
    alGet (normalize raw).data "Items" = some (DataVal.itemList (foldState raw).items)
    ∧ ∀ v, ("Items", v) ∈ (normalize raw).data → v = DataVal.itemList (foldState raw).items := by
  have h1 : alGet (normalize raw).data "Items"
      = some (DataVal.itemList (foldState raw).items) := by
    rw [normalize_eq]
    exact alGet_alInsert_self _ _ _
  refine ⟨h1, fun v hv => ?_⟩
  have h2 := alGet_of_mem_nodup _ _ _ (normalize_data_keys_nodup raw) hv
  rw [h1] at h2
  exact (Option.some.inj h2).symm

/-- Witness for C5: the entirely empty raw result still carries
`Items ↦ []` in its fields map. -/
theorem C5_items_always_set_witness :
    alGet (normalize rawEmpty).data "Items"
      = some (DataVal.itemList (foldState rawEmpty).items)
    ∧ DataVal.itemList [] = DataVal.itemList (foldState rawEmpty).items :=
  ⟨(C5_items_always_set rawEmpty).1,
   (C5_items_always_set rawEmpty).2 (DataVal.itemList []) (by decide)⟩

/-- C6 counterexample: on the empty raw result the normalized fields map holds
the key "Items" while the fieldConfidences map does not, so the two maps do
not have the same key set. -/
theorem C6_counterexample :
    (alGet (normalize rawEmpty).data "Items").isSome = true
    ∧ (alGet (normalize rawEmpty).dataConfidence "Items").isSome = false := by
  decide

/-- C6 amended: the fields and fieldConfidences maps agree on every key other
than "Items" (written together under the same overwrite rule), while "Items"
is always a key of fields and never a key of fieldConfidences. -/
theorem C6_paired_except_items (raw : RawAnalysisResult) (k : String) :
    (k ≠ "Items" →
      ((alGet (normalize raw).data k).isSome
        ↔ (alGet (normalize raw).dataConfidence k).isSome))
    ∧ (alGet (normalize raw).data "Items").isSome
    ∧ alGet (normalize raw).dataConfidence "Items" = none := by
  refine ⟨fun hk => ?_, ?_, normalize_conf_items_none raw⟩
  · rw [normalize_data_get raw k hk, normalize_conf_get raw k hk]
    cases (allFields raw).reverse.find? (fun f => decide (labelName f = some k)) <;> simp
  · rw [normalize_items_get raw]
    rfl

/-- Witness for C6 (amended): on `rawDup` the key "A" is in both maps and
"Items" is in the fields map. -/
theorem C6_paired_except_items_witness :
    ((alGet (normalize rawDup).data "A").isSome
      ↔ (alGet (normalize rawDup).dataConfidence "A").isSome)
    ∧ (alGet (normalize rawDup).data "Items").isSome :=
  ⟨(C6_paired_except_items rawDup "A").1 (by decide),
   (C6_paired_except_items rawDup "A").2.1⟩

/-- C7: normalization is total on absent collections: missing
`detectedDocumentTypes`, `pages`, `document_fields`, `field_label`,
`field_value` or nested item collections behave as empty, and the entirely
empty raw result yields confidence 1 and a fields map holding only
`Items ↦ []`. -/
theorem C7_total_on_missing :
    (∀ p, normalize ⟨none, p⟩ = normalize ⟨some [], p⟩)
    ∧ (∀ d, normalize ⟨d, none⟩ = normalize ⟨d, some []⟩)
    ∧ (∀ d, normalize ⟨d, some [⟨none⟩]⟩ = normalize ⟨d, some []⟩)
    ∧ (∀ st, processField st ⟨none, none⟩ = st)
    ∧ (∀ st lab, processField st ⟨some lab, none⟩
        = match lab.name with
          | some nm =>
            if nm = "Items" then st
            else { st with data := alInsert st.data nm (DataVal.scalar JVal.null),
                           dataConf := alInsert st.dataConf nm lab.confidence }
          | none => st)
    ∧ extractItemRecord ⟨none⟩ = []
    ∧ extractItemRecord ⟨some ⟨none⟩⟩ = []
    ∧ normalize rawEmpty
        = { confidence := 1, data := [("Items", DataVal.itemList [])],
            dataConfidence := [] } := by
  refine ⟨fun p => rfl, fun d => rfl, fun d => rfl, fun st => rfl, fun st lab => ?_,
    rfl, rfl, by decide⟩
  cases hn : lab.name with
  | none => simp [processField, labelName, hn]
  | some nm =>
    by_cases hnm : nm = "Items"
    · subst hnm
      simp [processField, labelName, groupsOf, hn]
    · simp [processField, labelName, labelConf, scalarValueOf, hn, hnm]

/-- C8: when the extraction is accepted, a raising persistence call is caught
and the caller receives exactly the success payload that a succeeding
persistence call would have produced. -/
theorem C8_persistence_isolation (e : NormalizedExtraction) (db : DB)
    (h : ¬ e.confidence < 9/10) :
    (gateAndPersist e db true).1 = (gateAndPersist e db false).1
    ∧ (gateAndPersist e db true).1 = ExtractOutcome.ok e := by
  unfold gateAndPersist
  rw [if_neg h, if_neg h]
  exact ⟨rfl, rfl⟩

/-- Witness for C8 at a fully trusted extraction over the empty store. -/
theorem C8_persistence_isolation_witness :
    ¬ eTrusted.confidence < 9/10
    ∧ (gateAndPersist eTrusted db0 true).1 = ExtractOutcome.ok eTrusted :=
  ⟨by norm_num [eTrusted], (C8_persistence_isolation eTrusted db0 (by norm_num [eTrusted])).2⟩

/-- C9: with a truthy `InvoiceId`, the upsert replaces-or-inserts the invoice
and confidence rows for that key wholesale, leaves other keys untouched, and
after it (also after a re-save) the item rows for that key are exactly one row
per entry of `fields["Items"]`; with no truthy `InvoiceId` it writes nothing. -/
theorem C9_upsert_semantics (db : DB) (data : List (String × DataVal))
    (conf : List (String × Option Rat)) :
    (∀ iid, invoiceIdOf data = some iid →
      alGet (save db data conf).invoices iid = some (mkInvoiceRow data)
      ∧ alGet (save db data conf).confidences iid = some (mkConfidenceRow conf)
      ∧ itemsFor (save db data conf) iid = (itemRecordsOf data).map (mkItemRow iid)
      ∧ (∀ j, j ≠ iid →
          alGet (save db data conf).invoices j = alGet db.invoices j
          ∧ alGet (save db data conf).confidences j = alGet db.confidences j
          ∧ itemsFor (save db data conf) j = itemsFor db j)
      ∧ (∀ data2 conf2, invoiceIdOf data2 = some iid →
          itemsFor (save (save db data conf) data2 conf2) iid
            = (itemRecordsOf data2).map (mkItemRow iid)))
    ∧ (invoiceIdOf data = none → save db data conf = db) :=
  ⟨fun iid h => ⟨save_invoices_self db data conf iid h,
    save_confidences_self db data conf iid h,
    save_itemsFor_self db data conf iid h,
    fun j hj => ⟨save_invoices_other db data conf iid j h hj,
      save_confidences_other db data conf iid j h hj,
      save_itemsFor_other db data conf iid j h hj⟩,
    fun data2 conf2 h2 => save_itemsFor_self _ data2 conf2 iid h2⟩,
    save_no_id db data conf⟩

/-- Witness for C9: saving `INV-1` stores exactly its item rows, re-saving it
with a different item set leaves exactly the second set, and a save without an
`InvoiceId` writes nothing. -/
theorem C9_upsert_semantics_witness :
    itemsFor (save db0 dataInv1 confInv1) (DataVal.scalar (JVal.s "INV-1"))
      = (itemRecordsOf dataInv1).map (mkItemRow (DataVal.scalar (JVal.s "INV-1")))
    ∧ itemsFor (save (save db0 dataInv1 confInv1) dataInv1b confInv1)
        (DataVal.scalar (JVal.s "INV-1"))
      = (itemRecordsOf dataInv1b).map (mkItemRow (DataVal.scalar (JVal.s "INV-1")))
    ∧ save db0 [("Items", DataVal.itemList [])] confInv1 = db0 :=
  ⟨((C9_upsert_semantics db0 dataInv1 confInv1).1 _ (by decide)).2.2.1,
   ((C9_upsert_semantics db0 dataInv1 confInv1).1 _ (by decide)).2.2.2.2
     dataInv1b confInv1 (by decide),
   (C9_upsert_semantics db0 [("Items", DataVal.itemList [])] confInv1).2 (by decide)⟩

/-- C10: when the first "INVOICE" entry of the detected types carries no
confidence value, normalization uses the default document confidence 1, the
same value as when no entry matches at all. -/
theorem C10_absent_confidence_trusted (raw : RawAnalysisResult)
    (pre post : List DetectedDocType) (dt : DetectedDocType)
    (heq : raw.detected_document_types.getD [] = pre ++ dt :: post)
    (hpre : ∀ x ∈ pre, x.document_type ≠ some "INVOICE")
    (hdt : dt.document_type = some "INVOICE")
    (hconf : dt.confidence = none) :
    (normalize raw).confidence = 1 := by
  rw [normalize_confidence, heq, fic_first pre dt post hpre hdt, hconf]
  rfl

/-- Witness for C10: in `rawItems` the first "INVOICE" entry lacks a
confidence (a later one carries 1/5), and the document confidence is 1. -/
theorem C10_absent_confidence_trusted_witness :
    (normalize rawItems).confidence = 1 :=
  C10_absent_confidence_trusted rawItems
    [⟨some "RECEIPT", some (1/10)⟩] [⟨some "INVOICE", some (1/5)⟩]
    ⟨some "INVOICE", none⟩ (by rfl) (by decide) (by rfl) (by rfl)

end InvParser
